import Mathlib

/-!
# Verification of the ic-file-uploader upload engine

Shallow embedding of the chunking, sequential-upload and parallel-upload
logic of the `ic-file-uploader` crate (`src/lib.rs`, `src/parallel.rs`,
`src/main.rs`), together with theorems settling the specification claims.

Bytes are modelled as natural numbers, `Vec<u8>` as `List ℕ`, and the
machine integer `usize` as `ℕ` with explicit wrap-around modulo `2 ^ 64`
where the source can overflow or underflow (release-build semantics).
The external transfer primitive (a `dfx canister call` subprocess) is
opaque in the source; it is modelled by oracle functions giving the
success or failure of each attempt.
-/

namespace ICUploader

/-! ### Chunker — `split_into_chunks` (src/lib.rs lines 112–120)

The Rust source is
```
(start_ind..data.len()).step_by(chunk_size)
    .map(|start| { let end = usize::min(start + chunk_size, data.len());
                   data[start..end].to_vec() })
    .collect()
```
`Iterator::step_by` panics when its argument is `0`, so the function
panics for `chunk_size = 0`; for `chunk_size > 0` it yields the slices
starting at `start_ind, start_ind + chunk_size, …` while below
`data.len()`. -/

/-- The chunk slices produced by the `step_by(chunk_size)` range walk for a
positive step: the slice `data[s .. min (s + chunk_size) data.len]` at every
`s = start_ind + i * chunk_size` below `data.length`. -/
def split_go (data : List ℕ) (chunk_size : ℕ) (start_ind : ℕ) : List (List ℕ) :=
  if _h : start_ind < data.length ∧ 0 < chunk_size then
    ((data.drop start_ind).take chunk_size) :: split_go data chunk_size (start_ind + chunk_size)
  else []
  termination_by data.length - start_ind
  decreasing_by simp_wf; omega

/-- `split_into_chunks` from src/lib.rs. `none` models the Rust panic raised
by `step_by(0)` when `chunk_size = 0`; otherwise the chunk list is produced. -/
def split_into_chunks (data : List ℕ) (chunk_size : ℕ) (start_ind : ℕ) :
    Option (List (List ℕ)) :=
  if chunk_size = 0 then none
  else some (split_go data chunk_size start_ind)

theorem split_go_nil (data : List ℕ) (chunk_size start_ind : ℕ)
    (h : data.length ≤ start_ind) : split_go data chunk_size start_ind = [] := by
  rw [split_go, dif_neg]
  omega

theorem split_go_ne_nil (data : List ℕ) (chunk_size start_ind : ℕ)
    (h : split_go data chunk_size start_ind ≠ []) :
    start_ind < data.length ∧ 0 < chunk_size := by
  by_contra hc
  exact h (by rw [split_go, dif_neg hc])

theorem split_go_flatten (data : List ℕ) (chunk_size : ℕ) (hcs : 0 < chunk_size) :
    ∀ start_ind, (split_go data chunk_size start_ind).flatten = data.drop start_ind := by
  suffices h : ∀ n s, data.length - s ≤ n →
      (split_go data chunk_size s).flatten = data.drop s by
    intro s; exact h (data.length - s) s le_rfl
  intro n
  induction n with
  | zero =>
    intro s hs
    rw [split_go_nil data chunk_size s (by omega),
      List.drop_eq_nil_of_le (by omega)]
    rfl
  | succ n ih =>
    intro s hs
    by_cases hlt : s < data.length
    · rw [split_go, dif_pos ⟨hlt, hcs⟩, List.flatten_cons,
        ih (s + chunk_size) (by omega), ← List.drop_drop, List.take_append_drop]
    · rw [split_go_nil data chunk_size s (by omega),
        List.drop_eq_nil_of_le (by omega)]
      rfl

theorem split_go_shift (data : List ℕ) (chunk_size : ℕ) (hcs : 0 < chunk_size) :
    ∀ k s, split_go data chunk_size (k + s) = split_go (data.drop k) chunk_size s := by
  suffices h : ∀ n k s, data.length - (k + s) ≤ n →
      split_go data chunk_size (k + s) = split_go (data.drop k) chunk_size s by
    intro k s; exact h (data.length - (k + s)) k s le_rfl
  intro n
  induction n with
  | zero =>
    intro k s hs
    rw [split_go_nil data chunk_size (k + s) (by omega),
      split_go_nil (data.drop k) chunk_size s (by simp only [List.length_drop]; omega)]
  | succ n ih =>
    intro k s hs
    by_cases hlt : k + s < data.length
    · have hg : s < (data.drop k).length := by
        simp only [List.length_drop]; omega
      rw [split_go, dif_pos ⟨hlt, hcs⟩]
      conv_rhs => rw [split_go, dif_pos ⟨hg, hcs⟩]
      congr 1
      · rw [List.drop_drop]
      · rw [Nat.add_assoc]
        exact ih k (s + chunk_size) (by omega)
    · rw [split_go_nil data chunk_size (k + s) (by omega),
        split_go_nil (data.drop k) chunk_size s (by simp only [List.length_drop]; omega)]

theorem split_go_sizes (data : List ℕ) (chunk_size : ℕ) (hcs : 0 < chunk_size) :
    ∀ start_ind, ∀ c ∈ (split_go data chunk_size start_ind).dropLast,
      c.length = chunk_size := by
  suffices h : ∀ n s, data.length - s ≤ n →
      ∀ c ∈ (split_go data chunk_size s).dropLast, c.length = chunk_size by
    intro s; exact h (data.length - s) s le_rfl
  intro n
  induction n with
  | zero =>
    intro s hs
    rw [split_go_nil data chunk_size s (by omega)]
    simp
  | succ n ih =>
    intro s hs c hc
    by_cases hlt : s < data.length
    · rw [split_go, dif_pos ⟨hlt, hcs⟩] at hc
      rcases hrest : split_go data chunk_size (s + chunk_size) with _ | ⟨b, t⟩
      · rw [hrest] at hc
        simp at hc
      · have hlt2 : s + chunk_size < data.length :=
          (split_go_ne_nil data chunk_size (s + chunk_size) (by rw [hrest]; simp)).1
        rw [hrest, List.dropLast_cons₂] at hc
        rcases List.mem_cons.mp hc with h1 | h2
        · subst h1
          simp
          omega
        · exact ih (s + chunk_size) (by omega) c (by rw [hrest]; exact h2)
    · rw [split_go_nil data chunk_size s (by omega)] at hc
      simp at hc

/-- C3: for every byte vector `data` and every `chunk_size > 0`, the split at
offset 0 is produced (no panic), concatenating it reproduces `data` exactly,
the split at offset `k` equals the split of `data[k:]` at offset 0, and every
chunk except possibly the last has length exactly `chunk_size`. -/
theorem split_into_chunks_spec (data : List ℕ) (chunk_size k : ℕ)
    (hcs : 0 < chunk_size) :
    split_into_chunks data chunk_size 0 = some (split_go data chunk_size 0)
    ∧ (split_go data chunk_size 0).flatten = data
    ∧ split_into_chunks data chunk_size k
        = split_into_chunks (data.drop k) chunk_size 0
    ∧ (∀ c ∈ (split_go data chunk_size k).dropLast, c.length = chunk_size) := by
  refine ⟨?_, ?_, ?_, ?_⟩
  · rw [split_into_chunks, if_neg (by omega)]
  · rw [split_go_flatten data chunk_size hcs 0, List.drop_zero]
  · rw [split_into_chunks, split_into_chunks, if_neg (by omega), if_neg (by omega)]
    have := split_go_shift data chunk_size hcs k 0
    rw [Nat.add_zero] at this
    rw [this]
  · exact split_go_sizes data chunk_size hcs k

/-- Witness for C3 at `data = [1,2,3,4,5]`, `chunk_size = 2`, `k = 2`. -/
theorem split_into_chunks_spec_witness :
    0 < 2
    ∧ (split_into_chunks [1,2,3,4,5] 2 0 = some (split_go [1,2,3,4,5] 2 0)
      ∧ (split_go [1,2,3,4,5] 2 0).flatten = [1,2,3,4,5]
      ∧ split_into_chunks [1,2,3,4,5] 2 2
          = split_into_chunks (([1,2,3,4,5] : List ℕ).drop 2) 2 0
      ∧ (∀ c ∈ (split_go [1,2,3,4,5] 2 2).dropLast, c.length = 2)) :=
  ⟨by decide, split_into_chunks_spec [1,2,3,4,5] 2 2 (by decide)⟩

/-- C8 counterexample: with `chunk_size = 0` the call panics (`step_by(0)`):
the model evaluates to `none`, which is the panic marker — no error value is
returned and the function has no error channel (`Vec<Vec<u8>>`, not `Result`),
refuting the claim that an invalid-configuration error value is returned. -/
theorem split_zero_counterexample : split_into_chunks [0] 0 0 = none := rfl

/-- C8 amended: for every `data` and every `start_ind`, calling
`split_into_chunks` with `chunk_size = 0` panics (modelled as `none`): the
call neither returns an error value nor produces a chunk sequence. -/
theorem split_zero_panics (data : List ℕ) (start_ind : ℕ) :
    split_into_chunks data 0 start_ind = none := rfl

/-! ### Per-chunk retry loops

`upload_chunk_with_config` (src/lib.rs lines 210–263) and the parallel
worker `upload_chunk_with_retry` (src/parallel.rs lines 157–206) share the
same control flow: `attempts` starts at 0, each pass increments it and
invokes the transfer primitive once; success returns immediately; failure
returns once `attempts >= max_attempts`, otherwise the loop sleeps
(`retry_delay_ms`, not modelled) and retries.  The primitive (a `dfx`
subprocess) is opaque in the source and is modelled by an oracle
`prim : ℕ → Bool` giving the outcome of each 1-based attempt.  The model
returns the success flag together with the number of primitive invocations.
The tracker updates the parallel worker performs are part of the scheduler
model further below. -/

/-- The shared retry loop body, from `attempts` invocations already made. -/
def retryGo (prim : ℕ → Bool) (max_attempts : ℕ) (attempts : ℕ) : Bool × ℕ :=
  let a := attempts + 1
  if prim a then (true, a)
  else if max_attempts ≤ a then (false, a)
  else retryGo prim max_attempts a
  termination_by max_attempts - attempts
  decreasing_by simp_wf; omega

/-- `upload_chunk_with_config` (src/lib.rs): `max_attempts` is
`max_retries` when `auto_resume` is on and `1` otherwise. -/
def upload_chunk_with_config_run (prim : ℕ → Bool) (auto_resume : Bool)
    (max_retries : ℕ) : Bool × ℕ :=
  retryGo prim (if auto_resume then max_retries else 1) 0

/-- The retry loop of the parallel worker `upload_chunk_with_retry`
(src/parallel.rs): always up to `max_retries` attempts. -/
def upload_chunk_with_retry_run (prim : ℕ → Bool) (max_retries : ℕ) : Bool × ℕ :=
  retryGo prim max_retries 0

theorem retryGo_always_fail (prim : ℕ → Bool) (hf : ∀ a, prim a = false)
    (max_attempts : ℕ) :
    ∀ attempts, attempts < max_attempts →
      retryGo prim max_attempts attempts = (false, max_attempts) := by
  suffices h : ∀ n attempts, max_attempts - attempts ≤ n → attempts < max_attempts →
      retryGo prim max_attempts attempts = (false, max_attempts) by
    intro attempts hlt; exact h (max_attempts - attempts) attempts le_rfl hlt
  intro n
  induction n with
  | zero => intro attempts hle hlt; omega
  | succ n ih =>
    intro attempts hle hlt
    rw [retryGo]
    simp only [hf, Bool.false_eq_true, if_false]
    by_cases hstop : max_attempts ≤ attempts + 1
    · rw [if_pos hstop]
      have : attempts + 1 = max_attempts := by omega
      rw [this]
    · rw [if_neg hstop]
      exact ih (attempts + 1) (by omega) (by omega)

theorem retryGo_first_success (prim : ℕ → Bool) (k max_attempts : ℕ)
    (_hk1 : 1 ≤ k) (hkA : k ≤ max_attempts)
    (hfail : ∀ a, 1 ≤ a → a < k → prim a = false) (hsucc : prim k = true) :
    ∀ attempts, attempts < k →
      retryGo prim max_attempts attempts = (true, k) := by
  suffices h : ∀ n attempts, k - attempts ≤ n → attempts < k →
      retryGo prim max_attempts attempts = (true, k) by
    intro attempts hlt; exact h (k - attempts) attempts le_rfl hlt
  intro n
  induction n with
  | zero => intro attempts hle hlt; omega
  | succ n ih =>
    intro attempts hle hlt
    rw [retryGo]
    by_cases hk : attempts + 1 = k
    · rw [hk]
      simp only [hsucc, if_true]
    · have hlt2 : attempts + 1 < k := by omega
      simp only [hfail (attempts + 1) (by omega) hlt2, Bool.false_eq_true, if_false,
        if_neg (show ¬ max_attempts ≤ attempts + 1 by omega)]
      exact ih (attempts + 1) (by omega) hlt2

/-- C5: for every `max_retries ≥ 1`, a primitive failing on attempts
`1 … max_retries − 1` and succeeding on attempt `max_retries` is reported as
successful (after exactly `max_retries` invocations), and an always-failing
primitive is reported as failed after exactly `max_retries` invocations —
both in the parallel worker loop and in the sequential per-chunk loop with
`auto_resume` on. -/
theorem retry_bound_spec (prim primF : ℕ → Bool) (max_retries : ℕ)
    (hmr : 1 ≤ max_retries)
    (hfail : ∀ a, 1 ≤ a → a < max_retries → prim a = false)
    (hsucc : prim max_retries = true)
    (hF : ∀ a, primF a = false) :
    upload_chunk_with_retry_run prim max_retries = (true, max_retries)
    ∧ upload_chunk_with_config_run prim true max_retries = (true, max_retries)
    ∧ upload_chunk_with_retry_run primF max_retries = (false, max_retries)
    ∧ upload_chunk_with_config_run primF true max_retries = (false, max_retries) := by
  have h1 : retryGo prim max_retries 0 = (true, max_retries) :=
    retryGo_first_success prim max_retries max_retries hmr le_rfl hfail hsucc 0
      (by omega)
  have h2 : retryGo primF max_retries 0 = (false, max_retries) :=
    retryGo_always_fail primF hF max_retries 0 (by omega)
  refine ⟨h1, ?_, h2, ?_⟩
  · rw [upload_chunk_with_config_run, if_pos rfl]
    exact h1
  · rw [upload_chunk_with_config_run, if_pos rfl]
    exact h2

/-- Witness for C5 at `max_retries = 2`, a primitive succeeding exactly on
attempt 2, and an always-failing primitive. -/
theorem retry_bound_spec_witness :
    1 ≤ 2
    ∧ (upload_chunk_with_retry_run (fun a => decide (a = 2)) 2 = (true, 2)
      ∧ upload_chunk_with_config_run (fun a => decide (a = 2)) true 2 = (true, 2)
      ∧ upload_chunk_with_retry_run (fun _ => false) 2 = (false, 2)
      ∧ upload_chunk_with_config_run (fun _ => false) true 2 = (false, 2)) :=
  ⟨by decide,
    retry_bound_spec (fun a => decide (a = 2)) (fun _ => false) 2 (by decide)
      (fun a h1 h2 => by
        have ha : a = 1 := by omega
        subst ha
        rfl)
      (by decide) (fun _ => rfl)⟩

/-- C10: with `max_retries = 0` both retry loops still invoke the primitive
exactly once, report success iff that single attempt succeeds, and behave
identically to `max_retries = 1`. -/
theorem zero_retries_single_attempt (prim : ℕ → Bool) :
    upload_chunk_with_retry_run prim 0 = upload_chunk_with_retry_run prim 1
    ∧ upload_chunk_with_config_run prim true 0 = upload_chunk_with_config_run prim true 1
    ∧ upload_chunk_with_retry_run prim 0 = (prim 1, 1)
    ∧ upload_chunk_with_config_run prim true 0 = (prim 1, 1) := by
  have h0 : retryGo prim 0 0 = (prim 1, 1) := by
    rw [retryGo]
    cases hp : prim 1 <;> simp [hp]
  have h1 : retryGo prim 1 0 = (prim 1, 1) := by
    rw [retryGo]
    cases hp : prim 1 <;> simp [hp]
  refine ⟨?_, ?_, ?_, ?_⟩ <;>
    simp [upload_chunk_with_retry_run, upload_chunk_with_config_run, h0, h1]

/-! ### Sequential uploader — `upload_chunks_with_resume` (src/lib.rs 280–311)

The source iterates `chunks.iter().enumerate().skip(start_from_chunk)`; each
chunk goes through `upload_chunk_with_config`; `Ok` continues, `Err` returns
`Interrupted` (when `auto_resume`) or `Failed` immediately.  The transfer
primitive is the oracle `prim : ℕ → ℕ → Bool` (chunk index → 1-based attempt
→ success).  Besides the `ChunkUploadResult` the model returns a log of
`(chunk index, primitive invocations)` pairs, one entry per chunk for which
`upload_chunk_with_config` was called, in call order. -/

/-- `ChunkUploadResult` from src/lib.rs. -/
inductive ChunkUploadResult where
  | Success : ChunkUploadResult
  | Failed : String → ChunkUploadResult
  | Interrupted : ℕ → String → ChunkUploadResult
deriving DecidableEq

/-- Error text built on retry exhaustion (src/lib.rs lines 245–248); the
trailing dfx-provided error text is omitted (environment-dependent). -/
def retryFailMsg (chunk_index total attempts : ℕ) : String :=
  "Failed to upload chunk " ++ toString (chunk_index + 1) ++ "/" ++ toString total
    ++ " after " ++ toString attempts ++ " attempts"

/-- The per-chunk loop of `upload_chunks_with_resume` from index `i`. -/
def uploadChunksGo (prim : ℕ → ℕ → Bool) (auto_resume : Bool)
    (max_retries total : ℕ) (i : ℕ) (log : List (ℕ × ℕ)) :
    ChunkUploadResult × List (ℕ × ℕ) :=
  if _h : i < total then
    let r := retryGo (prim i) (if auto_resume then max_retries else 1) 0
    if r.1 then
      uploadChunksGo prim auto_resume max_retries total (i + 1) (log ++ [(i, r.2)])
    else if auto_resume then
      (.Interrupted i (retryFailMsg i total r.2), log ++ [(i, r.2)])
    else (.Failed (retryFailMsg i total r.2), log ++ [(i, r.2)])
  else (.Success, log)
  termination_by total - i
  decreasing_by simp_wf; omega

/-- `upload_chunks_with_resume` from src/lib.rs. -/
def upload_chunks_with_resume (prim : ℕ → ℕ → Bool) (chunks : List (List ℕ))
    (start_from_chunk : ℕ) (auto_resume : Bool) (max_retries : ℕ) :
    ChunkUploadResult × List (ℕ × ℕ) :=
  if chunks.isEmpty then (.Failed "No chunks to upload", [])
  else if chunks.length ≤ start_from_chunk then
    (.Failed "Start chunk index exceeds total chunks", [])
  else uploadChunksGo prim auto_resume max_retries chunks.length start_from_chunk []

theorem uploadChunksGo_log (prim : ℕ → ℕ → Bool) (auto_resume : Bool)
    (max_retries total : ℕ) :
    ∀ i log, uploadChunksGo prim auto_resume max_retries total i log
      = ((uploadChunksGo prim auto_resume max_retries total i []).1,
         log ++ (uploadChunksGo prim auto_resume max_retries total i []).2) := by
  suffices h : ∀ n i, total - i ≤ n → ∀ log,
      uploadChunksGo prim auto_resume max_retries total i log
        = ((uploadChunksGo prim auto_resume max_retries total i []).1,
           log ++ (uploadChunksGo prim auto_resume max_retries total i []).2) by
    intro i log; exact h (total - i) i le_rfl log
  intro n
  induction n with
  | zero =>
    intro i hle log
    rw [uploadChunksGo, dif_neg (by omega), uploadChunksGo, dif_neg (by omega)]
    simp
  | succ n ih =>
    intro i hle log
    by_cases hi : i < total
    · rw [uploadChunksGo, dif_pos hi]
      conv_rhs => rw [uploadChunksGo, dif_pos hi]
      set r := retryGo (prim i) (if auto_resume then max_retries else 1) 0 with hr
      by_cases h1 : r.1
      · simp only [if_pos h1]
        rw [ih (i + 1) (by omega) (log ++ [(i, r.2)]),
          ih (i + 1) (by omega) ([] ++ [(i, r.2)])]
        simp
      · simp only [if_neg h1]
        by_cases har : auto_resume <;> simp [har]
    · rw [uploadChunksGo, dif_neg hi, uploadChunksGo, dif_neg hi]
      simp

theorem uploadChunksGo_all_success (prim : ℕ → ℕ → Bool) (auto_resume : Bool)
    (max_retries total : ℕ) (hprim : ∀ i a, prim i a = true) :
    ∀ i, uploadChunksGo prim auto_resume max_retries total i []
      = (.Success, (List.range' i (total - i)).map (fun j => (j, 1))) := by
  have hstep : ∀ i, retryGo (prim i) (if auto_resume then max_retries else 1) 0
      = (true, 1) := by
    intro i
    rw [retryGo]
    simp [hprim]
  suffices h : ∀ n i, total - i ≤ n →
      uploadChunksGo prim auto_resume max_retries total i []
        = (.Success, (List.range' i (total - i)).map (fun j => (j, 1))) by
    intro i; exact h (total - i) i le_rfl
  intro n
  induction n with
  | zero =>
    intro i hle
    rw [uploadChunksGo, dif_neg (by omega)]
    have : total - i = 0 := by omega
    rw [this]
    rfl
  | succ n ih =>
    intro i hle
    by_cases hi : i < total
    · rw [uploadChunksGo, dif_pos hi]
      simp only [hstep i, if_pos]
      rw [uploadChunksGo_log prim auto_resume max_retries total (i + 1) ([] ++ [(i, 1)]),
        ih (i + 1) (by omega)]
      have hrange : total - i = (total - (i + 1)) + 1 := by omega
      rw [hrange, List.range'_succ]
      simp
    · rw [uploadChunksGo, dif_neg hi]
      have : total - i = 0 := by omega
      rw [this]
      rfl

/-- C6: against an always-succeeding primitive, resuming from `k < total`
uploads exactly chunks `k … total − 1` in ascending order, one primitive
invocation each, and returns `Success`; while `start_from_chunk ≥ total` on
a non-empty chunk list returns `Failed` with no primitive invocation. -/
theorem resume_spec (prim : ℕ → ℕ → Bool) (chunks : List (List ℕ))
    (k kBig : ℕ) (auto_resume : Bool) (max_retries : ℕ)
    (hne : chunks ≠ [])
    (hk : k < chunks.length)
    (hprim : ∀ i a, prim i a = true)
    (hkBig : chunks.length ≤ kBig) :
    upload_chunks_with_resume prim chunks k auto_resume max_retries
      = (.Success, (List.range' k (chunks.length - k)).map (fun j => (j, 1)))
    ∧ upload_chunks_with_resume prim chunks kBig auto_resume max_retries
      = (.Failed "Start chunk index exceeds total chunks", []) := by
  constructor
  · rw [upload_chunks_with_resume, if_neg (by simp [hne]), if_neg (by omega)]
    exact uploadChunksGo_all_success prim auto_resume max_retries chunks.length hprim k
  · rw [upload_chunks_with_resume, if_neg (by simp [hne]), if_pos (by omega)]

/-- The always-succeeding transfer primitive. -/
def primAlwaysTrue : ℕ → ℕ → Bool := fun _ _ => true

/-- Witness for C6 at three chunks, `k = 1`, `kBig = 5`. -/
theorem resume_spec_witness :
    (([[1],[2],[3]] : List (List ℕ)) ≠ [])
    ∧ 1 < 3 ∧ (∀ i a, primAlwaysTrue i a = true) ∧ 3 ≤ 5
    ∧ (upload_chunks_with_resume primAlwaysTrue [[1],[2],[3]] 1 true 3
        = (.Success, [(1, 1), (2, 1)])
      ∧ upload_chunks_with_resume primAlwaysTrue [[1],[2],[3]] 5 true 3
        = (.Failed "Start chunk index exceeds total chunks", [])) :=
  ⟨by decide, by decide, fun _ _ => rfl, by decide,
    resume_spec primAlwaysTrue [[1],[2],[3]] 1 5 true 3 (by decide) (by decide)
      (fun _ _ => rfl) (by decide)⟩

theorem retryGo_one_attempt (p : ℕ → Bool) : retryGo p 1 0 = (p 1, 1) := by
  rw [retryGo]
  cases hp : p 1 <;> simp [hp]

/-- C7: with `auto_resume` off every attempted chunk gets exactly one
primitive invocation regardless of `max_retries`, and the first chunk
failure (`j`, with all chunks from `k` up to `j` succeeding before it)
returns `Failed` immediately: the log stops at `j` and no later chunk is
attempted. -/
theorem no_autoresume_spec (prim : ℕ → ℕ → Bool) (chunks : List (List ℕ))
    (k j max_retries : ℕ)
    (hj : j < chunks.length) (hkj : k ≤ j)
    (hfail : prim j 1 = false)
    (hbefore : ∀ i, k ≤ i → i < j → prim i 1 = true) :
    upload_chunks_with_resume prim chunks k false max_retries
      = (.Failed (retryFailMsg j chunks.length 1),
         (List.range' k (j - k + 1)).map (fun i => (i, 1))) := by
  have hne : ¬ chunks.isEmpty := by
    cases chunks with
    | nil => simp at hj
    | cons a l => simp
  rw [upload_chunks_with_resume, if_neg hne, if_neg (by omega)]
  suffices h : ∀ n i, j - i ≤ n → k ≤ i → i ≤ j →
      (∀ m, i ≤ m → m < j → prim m 1 = true) →
      uploadChunksGo prim false max_retries chunks.length i []
        = (.Failed (retryFailMsg j chunks.length 1),
           (List.range' i (j - i + 1)).map (fun m => (m, 1))) by
    exact h (j - k) k le_rfl le_rfl hkj hbefore
  intro n
  induction n with
  | zero =>
    intro i hle hki hij hpre
    have hik : i = j := by omega
    subst hik
    rw [uploadChunksGo, dif_pos (by omega)]
    simp [retryGo_one_attempt, hfail, Nat.sub_self]
  | succ n ih =>
    intro i hle hki hij hpre
    by_cases hij2 : i = j
    · subst hij2
      rw [uploadChunksGo, dif_pos (by omega)]
      simp [retryGo_one_attempt, hfail, Nat.sub_self]
    · have hilt : i < j := by omega
      rw [uploadChunksGo, dif_pos (by omega)]
      simp only [Bool.false_eq_true, if_false, retryGo_one_attempt, hpre i le_rfl hilt,
        List.nil_append, if_true]
      rw [uploadChunksGo_log prim false max_retries chunks.length (i + 1) [(i, 1)],
        ih (i + 1) (by omega) (by omega) (by omega)
          (fun m hm1 hm2 => hpre m (by omega) hm2)]
      have hrange : j - i + 1 = (j - (i + 1) + 1) + 1 := by omega
      rw [hrange]
      simp [List.range'_succ]

/-- The primitive succeeding only on chunk index 0. -/
def primOnlyChunkZero : ℕ → ℕ → Bool := fun i _ => decide (i = 0)

/-- Witness for C7 at three chunks, `k = 0`, first failure at chunk 1. -/
theorem no_autoresume_spec_witness :
    1 < 3 ∧ 0 ≤ 1 ∧ primOnlyChunkZero 1 1 = false
    ∧ (∀ i, 0 ≤ i → i < 1 → primOnlyChunkZero i 1 = true)
    ∧ upload_chunks_with_resume primOnlyChunkZero [[1],[2],[3]] 0 false 7
        = (.Failed (retryFailMsg 1 3 1), [(0, 1), (1, 1)]) :=
  ⟨by decide, by decide, by decide,
    fun i h0 h1 => by
      have hi : i = 0 := by omega
      subst hi
      rfl,
    no_autoresume_spec primOnlyChunkZero [[1],[2],[3]] 0 1 7 (by decide) (by decide)
      (by decide)
      (fun i h0 h1 => by
        have hi : i = 0 := by omega
        subst hi
        rfl)⟩

/-! ### Parallel scheduler — `upload_chunks_parallel` (src/parallel.rs 271–425)

The coordinator loop is modelled as a transition system driven per
iteration by a schedule: `rateOK` stands for the wall-clock-dependent test
`current_rate_mibs() < target_rate_mibs` of `should_start_upload`, and
`finishes` tells which in-flight worker threads have completed before this
iteration's `is_finished` poll.  Worker results are abstracted by an
outcome oracle `ℕ → FinishKind` (the per-attempt retry behaviour of one
worker is `upload_chunk_with_retry_run` above): `ok` is `Ok(Ok(()))` at
`join`, `err` is `Ok(Err(e))` (retries exhausted), `panicked` is `Err(_)`
(worker thread panicked before touching the tracker).

`usize` arithmetic on the tracker is modelled with explicit wrap-around
modulo `2 ^ 64` (64-bit target, release build).  `start_time` and the
pacing sleeps have no effect on the tracked data and are omitted;
`completed_chunks` and `bytes_uploaded` are kept.  Workers finish at one
point of each coordinator pass (between admission and the poll), which is
the class of interleavings the single poll of the source observes. -/

/-- `ChunkInfo` from src/parallel.rs. -/
structure ChunkInfo where
  chunk_id : ℕ
  data : List ℕ
  size : ℕ
deriving DecidableEq

/-- What `handle.join()` returns for a finished worker. -/
inductive FinishKind where
  | ok : FinishKind
  | err : FinishKind
  | panicked : FinishKind
deriving DecidableEq

/-- `2 ^ 64`: the modulus of `usize` arithmetic on a 64-bit target. -/
def USIZE : ℕ := 2 ^ 64

/-- `usize` addition (release build: wrapping). -/
def wrapAdd (a b : ℕ) : ℕ := (a + b) % USIZE

/-- `x -= 1` on `usize` in a release build: wraps to `2 ^ 64 - 1` at zero. -/
def wrapDec (a : ℕ) : ℕ := (a + (USIZE - 1)) % USIZE

/-- The shared `UploadTracker` (src/parallel.rs 74–83); `start_time` is
wall-clock and omitted. -/
structure Tracker where
  bytes_uploaded : ℕ
  active_uploads : ℕ
  completed_chunks : List ℕ
deriving DecidableEq

/-- `UploadTracker::new()`. -/
def Tracker.init : Tracker := ⟨0, 0, []⟩

/-- `should_start_upload` (src/parallel.rs 106–113): refuse at the
concurrency cap, otherwise admit when under the target rate or idle. -/
def should_start_upload (t : Tracker) (max_concurrent : ℕ)
    (rate_below_target : Bool) : Bool :=
  if max_concurrent ≤ t.active_uploads then false
  else rate_below_target || (t.active_uploads == 0)

/-- The tracker mutation a worker performs when its retry loop ends
(src/parallel.rs 171–191): on success add the chunk size, record the chunk id
and decrement `active_uploads`; on retry exhaustion only decrement; a
panicking worker dies before reaching either mutation. -/
def workerFinish (k : FinishKind) (c : ChunkInfo) (t : Tracker) : Tracker :=
  match k with
  | .ok =>
      { bytes_uploaded := wrapAdd t.bytes_uploaded c.size,
        active_uploads := wrapDec t.active_uploads,
        completed_chunks := t.completed_chunks ++ [c.chunk_id] }
  | .err => { t with active_uploads := wrapDec t.active_uploads }
  | .panicked => t

/-- Per-iteration schedule: the environment-dependent rate comparison and
which in-flight workers have finished before this pass's poll. -/
structure IterSched where
  rateOK : Bool
  finishes : ℕ → Bool

/-- Coordinator state: the remaining pool (`chunks_remaining`), in-flight
workers, finished-but-unreaped handles, the shared tracker, and the result
sets `successful_chunks` / `failed_chunks` (ids; error strings carried by
`failed_chunks` do not influence control flow and are dropped). -/
structure LoopState where
  pool : List ChunkInfo
  running : List ChunkInfo
  finished : List ℕ
  tracker : Tracker
  successful : List ℕ
  failed : List ℕ
deriving DecidableEq

/-- Admission (loop body, src/parallel.rs 296–341): if `should_start_upload`
holds, pop the last chunk of the pool (`Vec::pop`), increment
`active_uploads` and dispatch a worker. -/
def admitPhase (sch : IterSched) (max_concurrent : ℕ) (s : LoopState) : LoopState :=
  if should_start_upload s.tracker max_concurrent sch.rateOK then
    match s.pool.getLast? with
    | some c =>
        { s with
          pool := s.pool.dropLast,
          tracker := { s.tracker with
            active_uploads := wrapAdd s.tracker.active_uploads 1 },
          running := s.running ++ [c] }
    | none => s
  else s

/-- Workers scheduled to finish this pass run their end-of-retry-loop
tracker mutation and become joinable. -/
def finishPhase (sch : IterSched) (outcome : ℕ → FinishKind) (s : LoopState) :
    LoopState :=
  { s with
    running := s.running.filter (fun c => !(sch.finishes c.chunk_id)),
    finished := s.finished
      ++ (s.running.filter (fun c => sch.finishes c.chunk_id)).map
           (fun c => c.chunk_id),
    tracker := (s.running.filter (fun c => sch.finishes c.chunk_id)).foldl
      (fun t c => workerFinish (outcome c.chunk_id) c t) s.tracker }

/-- Reaping (src/parallel.rs 343–372): every finished handle is removed,
`active_uploads` is decremented once per reaped handle ("Always decrement
active_uploads when a thread completes"), and the outcome is merged into
exactly one of `successful_chunks` / `failed_chunks` (`join` errors, i.e.
worker panics, count as failures). -/
def reapPhase (outcome : ℕ → FinishKind) (s : LoopState) : LoopState :=
  { s with
    finished := [],
    tracker := s.finished.foldl
      (fun t _ => { t with active_uploads := wrapDec t.active_uploads }) s.tracker,
    successful := s.successful
      ++ s.finished.filter (fun i => outcome i == FinishKind.ok),
    failed := s.failed
      ++ s.finished.filter (fun i => !(outcome i == FinishKind.ok)) }

/-- One pass of the main upload loop. -/
def iterStep (sch : IterSched) (outcome : ℕ → FinishKind) (max_concurrent : ℕ)
    (s : LoopState) : LoopState :=
  reapPhase outcome (finishPhase sch outcome (admitPhase sch max_concurrent s))

/-- The two exit tests at the bottom of the loop (src/parallel.rs 385–400):
the authoritative count check, and the defensive
`chunks_empty && no_active && handles.is_empty()` check. -/
def breakCond (total : ℕ) (s : LoopState) : Bool :=
  (total ≤ s.successful.length + s.failed.length)
  || (s.pool.isEmpty && (s.tracker.active_uploads == 0) && s.running.isEmpty
      && s.finished.isEmpty)

/-- The main loop: iterate passes (pass number `n` indexes the schedule)
until an exit test fires; `none` when `fuel` passes did not reach one. -/
def run_loop (outcome : ℕ → FinishKind) (max_concurrent : ℕ)
    (sched : ℕ → IterSched) (total : ℕ) : ℕ → ℕ → LoopState → Option LoopState
  | 0, _, _ => none
  | fuel + 1, n, s =>
      let s1 := iterStep (sched n) outcome max_concurrent s
      if breakCond total s1 then some s1
      else run_loop outcome max_concurrent sched total fuel (n + 1) s1

/-- The state at loop entry. -/
def initState (chunks : List ChunkInfo) : LoopState :=
  ⟨chunks, [], [], Tracker.init, [], []⟩

/-- `ParallelUploadResult` from src/parallel.rs (failed ids without their
error strings). -/
inductive ParallelUploadResult where
  | Success : ParallelUploadResult
  | PartialFailure : List ℕ → List ℕ → ParallelUploadResult
  | Failed : String → ParallelUploadResult
deriving DecidableEq

/-- How a call of `upload_chunks_parallel` ends: returning a value to the
caller, terminating the whole process via `std::process::exit`, or never
reaching the classification (loop still running after `fuel` passes). -/
inductive CallResult where
  | returned : ParallelUploadResult → CallResult
  | exited : ℕ → CallResult
  | noReturn : CallResult
deriving DecidableEq

/-- `upload_chunks_parallel` (src/parallel.rs 271–425): empty input returns
`Failed`; otherwise the loop runs and the classification branches
(lines 412–424) call `std::process::exit(0)` when `failed_chunks` is empty,
`std::process::exit(1)` when `successful_chunks` is empty, and
`std::process::exit(1)` in the mixed case. -/
def upload_chunks_parallel (outcome : ℕ → FinishKind) (max_concurrent : ℕ)
    (sched : ℕ → IterSched) (chunks : List ChunkInfo) (fuel : ℕ) : CallResult :=
  if chunks.isEmpty then .returned (.Failed "No chunks to upload")
  else
    match run_loop outcome max_concurrent sched chunks.length fuel 0
        (initState chunks) with
    | none => .noReturn
    | some s =>
        if s.failed.isEmpty then .exited 0
        else if s.successful.isEmpty then .exited 1
        else .exited 1

/-- The multiset of chunk ids across the pool, the in-flight workers, the
unreaped handles and the two result sets. -/
def stateIds (s : LoopState) : Multiset ℕ :=
  (s.pool.map ChunkInfo.chunk_id : Multiset ℕ)
    + (s.running.map ChunkInfo.chunk_id : Multiset ℕ)
    + (s.finished : Multiset ℕ)
    + (s.successful : Multiset ℕ)
    + (s.failed : Multiset ℕ)

theorem stateIds_admit (sch : IterSched) (mc : ℕ) (s : LoopState) :
    stateIds (admitPhase sch mc s) = stateIds s := by
  rw [admitPhase]
  by_cases hss : should_start_upload s.tracker mc sch.rateOK = true
  · rw [if_pos hss]
    cases hlast : s.pool.getLast? with
    | none => rfl
    | some c =>
      obtain ⟨ys, hys⟩ := List.getLast?_eq_some_iff.mp hlast
      simp only [stateIds, hys, List.dropLast_concat, List.map_append, List.map_cons,
        List.map_nil, ← Multiset.coe_add]
      abel
  · rw [if_neg hss]

theorem stateIds_finish (sch : IterSched) (outcome : ℕ → FinishKind)
    (s : LoopState) : stateIds (finishPhase sch outcome s) = stateIds s := by
  have hperm : List.Perm
      ((s.running.filter (fun c => sch.finishes c.chunk_id)).map
        ChunkInfo.chunk_id
      ++ (s.running.filter (fun c => !(sch.finishes c.chunk_id))).map
        ChunkInfo.chunk_id)
      (s.running.map ChunkInfo.chunk_id) := by
    rw [← List.map_append]
    exact (List.filter_append_perm _ s.running).map ChunkInfo.chunk_id
  have hco := Multiset.coe_eq_coe.mpr hperm
  simp only [stateIds, finishPhase, List.map_append, ← Multiset.coe_add]
  rw [← hco, ← Multiset.coe_add]
  abel

theorem stateIds_reap (outcome : ℕ → FinishKind) (s : LoopState) :
    stateIds (reapPhase outcome s) = stateIds s := by
  have hperm : List.Perm
      (s.finished.filter (fun i => outcome i == FinishKind.ok)
        ++ s.finished.filter (fun i => !(outcome i == FinishKind.ok)))
      s.finished := List.filter_append_perm _ s.finished
  have hco := Multiset.coe_eq_coe.mpr hperm
  simp only [stateIds, reapPhase, Multiset.coe_nil, ← Multiset.coe_add]
  rw [← hco, ← Multiset.coe_add]
  abel

theorem stateIds_iter (sch : IterSched) (outcome : ℕ → FinishKind) (mc : ℕ)
    (s : LoopState) : stateIds (iterStep sch outcome mc s) = stateIds s := by
  rw [iterStep, stateIds_reap, stateIds_finish, stateIds_admit]

theorem run_loop_inv (outcome : ℕ → FinishKind) (mc : ℕ) (sched : ℕ → IterSched)
    (total : ℕ) :
    ∀ fuel n s sFin, run_loop outcome mc sched total fuel n s = some sFin →
      stateIds sFin = stateIds s ∧ breakCond total sFin = true := by
  intro fuel
  induction fuel with
  | zero =>
    intro n s sFin h
    simp [run_loop] at h
  | succ fuel ih =>
    intro n s sFin h
    rw [run_loop] at h
    by_cases hb : breakCond total (iterStep (sched n) outcome mc s) = true
    · simp only [hb, if_true] at h
      obtain rfl := Option.some.inj h
      exact ⟨stateIds_iter _ _ _ _, hb⟩
    · simp only [Bool.not_eq_true] at hb
      simp only [hb, Bool.false_eq_true, if_false] at h
      obtain ⟨h1, h2⟩ := ih (n + 1) (iterStep (sched n) outcome mc s) sFin h
      exact ⟨h1.trans (stateIds_iter _ _ _ _), h2⟩

/-- C4: whenever the main loop of `upload_chunks_parallel` terminates — for
any worker outcomes, any schedule, any `max_concurrent ≥ 1` and any
submitted chunk list with distinct ids — the successful and failed id sets
are disjoint, duplicate-free, and together account for exactly the
submitted chunks. -/
theorem parallel_partition (outcome : ℕ → FinishKind) (max_concurrent : ℕ)
    (sched : ℕ → IterSched) (chunks : List ChunkInfo) (fuel : ℕ) (s : LoopState)
    (_hmc : 1 ≤ max_concurrent)
    (hnd : (chunks.map ChunkInfo.chunk_id).Nodup)
    (hrun : run_loop outcome max_concurrent sched chunks.length fuel 0
      (initState chunks) = some s) :
    s.successful.Disjoint s.failed ∧ s.successful.Nodup ∧ s.failed.Nodup
    ∧ s.successful.length + s.failed.length = chunks.length := by
  obtain ⟨hids, hbrk⟩ := run_loop_inv outcome max_concurrent sched chunks.length
    fuel 0 (initState chunks) s hrun
  have hinit : stateIds (initState chunks)
      = ((chunks.map ChunkInfo.chunk_id : List ℕ) : Multiset ℕ) := by
    simp [stateIds, initState]
  rw [hinit] at hids
  have hcard : s.pool.length + s.running.length + s.finished.length
      + s.successful.length + s.failed.length = chunks.length := by
    have hc := congrArg Multiset.card hids
    simp [stateIds, Multiset.coe_card] at hc
    omega
  have hempty : s.pool = [] ∧ s.running = [] ∧ s.finished = [] := by
    rw [breakCond] at hbrk
    simp only [Bool.or_eq_true, Bool.and_eq_true, decide_eq_true_eq,
      List.isEmpty_iff, beq_iff_eq] at hbrk
    rcases hbrk with h1 | h2
    · refine ⟨?_, ?_, ?_⟩ <;> rw [← List.length_eq_zero] <;> omega
    · exact ⟨h2.1.1.1, h2.1.2, h2.2⟩
  obtain ⟨hp, hr, hf⟩ := hempty
  rw [stateIds, hp, hr, hf] at hids
  simp only [List.map_nil, Multiset.coe_nil, ← Multiset.coe_add] at hids
  have hperm : List.Perm (s.successful ++ s.failed)
      (chunks.map ChunkInfo.chunk_id) := by
    rw [← Multiset.coe_eq_coe, ← Multiset.coe_add]
    simpa using hids
  have hnd2 : (s.successful ++ s.failed).Nodup := hperm.nodup_iff.mpr hnd
  rw [List.nodup_append] at hnd2
  have hlen := hperm.length_eq
  simp only [List.length_append, List.length_map] at hlen
  exact ⟨hnd2.2.2, hnd2.1, hnd2.2.1, hlen⟩

/-- A three-chunk input whose workers succeed, fail and panic respectively. -/
def c4chunks : List ChunkInfo := [⟨0, [1], 1⟩, ⟨1, [2], 1⟩, ⟨2, [3], 1⟩]

/-- Worker outcomes: chunk 0 succeeds, chunk 1 exhausts retries, chunk 2
panics. -/
def c4out : ℕ → FinishKind :=
  fun i => if i = 0 then .ok else if i = 1 then .err else .panicked

/-- Schedule: rate always under target; workers finish from pass 2 on. -/
def c4sched : ℕ → IterSched := fun n => ⟨true, fun _ => decide (2 ≤ n)⟩

/-- The terminal state of the `c4` run. -/
def c4final : LoopState :=
  (run_loop c4out 3 c4sched 3 5 0 (initState c4chunks)).getD (initState c4chunks)

/-- Witness for C4: the concrete three-chunk run above terminates and its
result sets partition the submitted ids. -/
theorem parallel_partition_witness :
    1 ≤ 3
    ∧ (c4chunks.map ChunkInfo.chunk_id).Nodup
    ∧ run_loop c4out 3 c4sched c4chunks.length 5 0 (initState c4chunks)
        = some c4final
    ∧ (c4final.successful.Disjoint c4final.failed ∧ c4final.successful.Nodup
      ∧ c4final.failed.Nodup
      ∧ c4final.successful.length + c4final.failed.length = c4chunks.length) :=
  ⟨by decide, by decide, by rfl,
    parallel_partition c4out 3 c4sched c4chunks 5 c4final (by decide) (by decide)
      (by rfl)⟩

/-- A single submitted chunk of three bytes. -/
def c2chunks : List ChunkInfo := [⟨0, [1, 2, 3], 3⟩]

/-- Schedule: rate always under target; every worker finishes immediately. -/
def c2sched : ℕ → IterSched := fun _ => ⟨true, fun _ => true⟩

/-- The single-pass run of one always-succeeding chunk at
`max_concurrent = 1`. -/
def c2run : Option LoopState :=
  run_loop (fun _ => FinishKind.ok) 1 c2sched 1 1 0 (initState c2chunks)

/-- C2 (refuting evaluation): one chunk, `max_concurrent = 1`, worker
succeeds on its first attempt.  The worker decrements `active_uploads` when
it finishes (src/parallel.rs 177) and the reaping coordinator decrements
again for the same handle (line 358): two decrements for one finished
worker.  The session ends with `active_uploads = 2 ^ 64 − 1` (`usize`
underflow wraps in a release build; a debug build panics instead), so the
invariant `0 ≤ activeUploads ≤ maxConcurrent` is violated and the
decrement is not performed exactly once. -/
theorem double_decrement_underflow :
    c2run.map (fun s => s.tracker.active_uploads) = some (USIZE - 1)
    ∧ c2run.map (fun s => s.successful) = some [0]
    ∧ 1 < USIZE - 1 :=
  ⟨rfl, rfl, by decide⟩

/-- Two submitted chunks. -/
def c1chunks : List ChunkInfo := [⟨0, [1], 1⟩, ⟨1, [2], 1⟩]

/-- Worker outcomes: chunk 0 succeeds, chunk 1 exhausts its retries. -/
def c1out : ℕ → FinishKind := fun i => if i = 0 then .ok else .err

/-- Schedule: rate always under target; workers finish from pass 1 on, so
both chunks are admitted before the first reap. -/
def c1sched : ℕ → IterSched := fun n => ⟨true, fun _ => decide (1 ≤ n)⟩

/-- C1 (refuting evaluation): chunk 0 succeeds and chunk 1 fails, so the
run reaches the mixed classification — yet the call ends in
`std::process::exit(1)` (src/parallel.rs 420–424), and likewise the
all-success branch exits with 0 and the all-failed branch with 1: for a
non-empty chunk set no `ParallelUploadResult` is ever returned to the
caller, so `main`'s `PartialFailure` arm — the one that writes the
`.failed_chunks` retry manifest (src/main.rs 201–225) — is unreachable.
Only the empty-input guard returns a value. -/
theorem parallel_exit_not_return :
    (run_loop c1out 2 c1sched 2 3 0 (initState c1chunks)).map
        (fun s => (s.successful, s.failed)) = some ([0], [1])
    ∧ upload_chunks_parallel c1out 2 c1sched c1chunks 3 = CallResult.exited 1
    ∧ (∀ r, upload_chunks_parallel c1out 2 c1sched c1chunks 3
        ≠ CallResult.returned r)
    ∧ upload_chunks_parallel c1out 2 c1sched [] 3
        = CallResult.returned (ParallelUploadResult.Failed "No chunks to upload") := by
  refine ⟨rfl, rfl, ?_, rfl⟩
  intro r hr
  exact CallResult.noConfusion hr

/-- C9: with `max_concurrent = 0` and a non-empty chunk set the scheduler
neither rejects the configuration nor clamps it to 1:
`should_start_upload` is false whenever `active_uploads ≥ max_concurrent`,
which at `max_concurrent = 0` always holds, so no chunk is ever admitted,
no completion is ever recorded, and neither exit test can fire — the loop
never terminates, for every schedule, every outcome oracle and every
number of passes. -/
theorem maxconcurrent_zero_never_terminates (outcome : ℕ → FinishKind)
    (sched : ℕ → IterSched) (chunks : List ChunkInfo) (hne : chunks ≠ []) :
    ∀ fuel n,
      run_loop outcome 0 sched chunks.length fuel n (initState chunks) = none := by
  have hfix : ∀ sch, iterStep sch outcome 0 (initState chunks) = initState chunks := by
    intro sch
    simp [iterStep, admitPhase, should_start_upload, finishPhase, reapPhase,
      initState, Tracker.init]
  have hbrk : breakCond chunks.length (initState chunks) = false := by
    cases chunks with
    | nil => exact absurd rfl hne
    | cons a l => simp [breakCond, initState]
  intro fuel
  induction fuel with
  | zero => intro n; rfl
  | succ fuel ih =>
    intro n
    rw [run_loop]
    simp only [hfix, hbrk, Bool.false_eq_true, if_false]
    exact ih (n + 1)

/-- One chunk, for the `max_concurrent = 0` run. -/
def c9chunks : List ChunkInfo := [⟨0, [7], 1⟩]

/-- A schedule that would admit and finish everything, were work admitted. -/
def c9sched : ℕ → IterSched := fun _ => ⟨true, fun _ => true⟩

/-- Witness for C9: the one-chunk run at `max_concurrent = 0` is still
inside the loop after 30 passes. -/
theorem maxconcurrent_zero_witness :
    (c9chunks ≠ [])
    ∧ run_loop (fun _ => FinishKind.ok) 0 c9sched c9chunks.length 30 0
        (initState c9chunks) = none :=
  ⟨by decide,
    maxconcurrent_zero_never_terminates (fun _ => FinishKind.ok) c9sched c9chunks
      (by decide) 30 0⟩

end ICUploader
